import Mathlib

/-!
Verification of `go_unique_ts` (`unique.go`): uniquified, naturally ordered
timestamps.  The Go code is shallowly embedded: `int64` becomes `Int` with
explicit two's-complement byte extraction (`>>` on `int64` is an arithmetic
shift, i.e. floor division; `& 0xFF` is the nonnegative residue mod 256),
`uint32` becomes `Nat` with explicit `% 2^32`, Go strings become `List Char`,
and Go's runtime panic on an out-of-range string slice is a distinct
`FSResult.panic` outcome.
-/

set_option maxRecDepth 10000

namespace GoUniqueTs

/-- The identifier value: `type UniqueTimestamp struct` from `unique.go`.
`Timestamp` is an `int64` (modelled as `Int`), `seqNo` a `uint32`
(modelled as `Nat`, kept below `2^32` by the operations), `hwAddr` a
`[6]byte` (modelled as a list of byte values). -/
structure UniqueTimestamp where
  Timestamp : Int
  seqNo : Nat
  hwAddr : List Nat
deriving DecidableEq, Repr

/-- Constant `hexString = "0123456789abcdef"` from the source. -/
def hexString : List Char := "0123456789abcdef".toList

/-- Indexing `hexString[n]` into the hex-digit table. -/
def hexDigit (n : Nat) : Char := hexString.getD n (Char.ofNat 0)

/-- Byte `(u.Timestamp >> uint(40-(i*8))) & 0xFF` — Go's `>>` on `int64` is
an arithmetic shift (floor division), `& 0xFF` the nonnegative residue. -/
def tsByte (t : Int) (i : Nat) : Nat :=
  ((t.fdiv ((2 : Int) ^ (40 - 8 * i))) % 256).toNat

/-- Byte `(u.seqNo >> uint(24-(i*8))) & 0xFF` — logical shift on `uint32`. -/
def seqByte (s : Nat) (i : Nat) : Nat :=
  s / 2 ^ (24 - 8 * i) % 256

/-- The first loop of `String()`:
`for i := 0; i < 6; i++ { b := (u.Timestamp >> uint(40-(i*8))) & 0xFF;
r[2*i] = hexString[b>>4]; r[2*i+1] = hexString[b&0xF] }`. -/
def writeTs (t : Int) (r : List Char) : List Char :=
  (List.range 6).foldl (fun r i =>
    let b := tsByte t i
    (r.set (2 * i) (hexDigit (b / 16))).set (2 * i + 1) (hexDigit (b % 16))) r

/-- The second loop of `String()`:
`for i := 0; i < 4; i++ { b := (u.seqNo >> uint(24-(i*8))) & 0xFF;
r[13+2*i] = hexString[b>>4]; r[14+2*i] = hexString[b&0xF] }`. -/
def writeSeq (s : Nat) (r : List Char) : List Char :=
  (List.range 4).foldl (fun r i =>
    let b := seqByte s i
    (r.set (13 + 2 * i) (hexDigit (b / 16))).set (14 + 2 * i) (hexDigit (b % 16))) r

/-- The third loop of `String()`:
`for i, b := range u.hwAddr { r[21+2*i] = hexString[b>>4]; r[22+2*i] = hexString[b&0xF] }`. -/
def writeHw (hw : List Nat) (r : List Char) : List Char :=
  hw.enum.foldl (fun r p =>
    (r.set (21 + 2 * p.1) (hexDigit (p.2 / 16))).set (22 + 2 * p.1) (hexDigit (p.2 % 16))) r

/-- Function `func (u UniqueTimestamp) String() string` from `unique.go`, write for
write: a 34-byte zero-initialised buffer (`r := make([]byte, 34)`), the six
timestamp bytes at 0..11, `r[12] = '-'`, the four sequence bytes at 13..20,
`r[20] = '-'` (overwriting the byte the sequence loop put there), the six
`hwAddr` bytes at 21..32.  Index 33 is never written and keeps the zero
(NUL) byte. -/
def UniqueTimestamp.String (u : UniqueTimestamp) : List Char :=
  writeHw u.hwAddr
    ((writeSeq u.seqNo
      ((writeTs u.Timestamp (List.replicate 34 (Char.ofNat 0))).set 12 '-')).set 20 '-')

/-- Process-wide generation state: the globals `seqNo uint32` and
`hwAddr [6]byte` of `unique.go`. -/
structure ProcState where
  seqNo : Nat
  hwAddr : List Nat
deriving DecidableEq, Repr

/-- Step `atomic.AddUint32(&seqNo, 1)`: 32-bit wrapping increment; returns the new
value.  Concurrent calls are linearizable, so a trace of calls is modelled as
a sequence of these steps. -/
def atomicAddUint32 (x : Nat) : Nat := (x + 1) % 2 ^ 32

/-- Function `func NewUniqueTimestamp(timestamp int64) UniqueTimestamp`, with the
process-wide state passed explicitly.  Returns the identifier and the updated
state. -/
def NewUniqueTimestamp (st : ProcState) (timestamp : Int) :
    UniqueTimestamp × ProcState :=
  let s := atomicAddUint32 st.seqNo
  (⟨timestamp, s, st.hwAddr⟩, ⟨s, st.hwAddr⟩)

/-- Function `func MinUniqueTimestamp(timestamp int64) UniqueTimestamp`. -/
def MinUniqueTimestamp (timestamp : Int) : UniqueTimestamp :=
  ⟨timestamp, 0, [0, 0, 0, 0, 0, 0]⟩

/-- Function `func MaxUniqueTimestamp(timestamp int64) UniqueTimestamp`. -/
def MaxUniqueTimestamp (timestamp : Int) : UniqueTimestamp :=
  ⟨timestamp, 0xFFFFFFFF, [0xFF, 0xFF, 0xFF, 0xFF, 0xFF, 0xFF]⟩

/-- Go's `strings.Split(val, "-")`: split on every `'-'`; `n` separators give
`n+1` parts, empty parts included. -/
def splitDash : List Char → List (List Char)
  | [] => [[]]
  | c :: rest =>
    if c = '-' then [] :: splitDash rest
    else
      match splitDash rest with
      | p :: ps => (c :: p) :: ps
      | [] => [[c]]

/-- The value of a hex digit for Go's `strconv` with base 16: `0`–`9`,
`a`–`f` and `A`–`F` are accepted. -/
def hexVal (c : Char) : Option Nat :=
  if '0' ≤ c ∧ c ≤ '9' then some (c.toNat - '0'.toNat)
  else if 'a' ≤ c ∧ c ≤ 'f' then some (c.toNat - 'a'.toNat + 10)
  else if 'A' ≤ c ∧ c ≤ 'F' then some (c.toNat - 'A'.toNat + 10)
  else none

/-- Accumulate base-16 digits left to right; `none` on any non-hex
character.  (Go checks overflow against a cutoff during the loop; since the
accumulated value only grows, that is equivalent to the final range check
done in `ParseUint` below.) -/
def parseHexDigits (cs : List Char) : Option Nat :=
  cs.foldl (fun acc c => acc.bind (fun n => (hexVal c).map (fun d => n * 16 + d)))
    (some 0)

/-- Go's `strconv.ParseUint(s, 16, bitSize)`: no sign permitted, input nonempty,
all characters hex, value at most `2^bitSize - 1`. -/
def ParseUint (cs : List Char) (bitSize : Nat) : Option Nat :=
  if cs = [] then none
  else
    match parseHexDigits cs with
    | none => none
    | some n => if n < 2 ^ bitSize then some n else none

/-- Go's `strconv.ParseInt(s, 16, 64)`: an optional leading `'+'` or `'-'`
(`if s[0] == '+' { s = s[1:] } else if s[0] == '-' { neg = true; s = s[1:] }`),
then a nonempty run of hex digits; range `-2^63 ≤ v ≤ 2^63 - 1`. -/
def ParseInt64Hex (cs : List Char) : Option Int :=
  match cs with
  | [] => none
  | c :: rest =>
    let digits := if c = '+' ∨ c = '-' then rest else c :: rest
    match ParseUint digits 64 with
    | none => none
    | some un =>
      if c = '-' then
        if un ≤ 2 ^ 63 then some (-(un : Int)) else none
      else
        if un < 2 ^ 63 then some (un : Int) else none

/-- Go string slice `s[a:b]` as a list (the in-range case). -/
def sliceList (p : List Char) (a b : Nat) : List Char :=
  (p.drop a).take (b - a)

/-- Outcome of `FromString`: normal return with the final receiver state
(`ok` for a nil error, `err` for a non-nil error), or a runtime panic. -/
inductive FSResult where
  | ok : UniqueTimestamp → FSResult
  | err : UniqueTimestamp → FSResult
  | panic : FSResult
deriving DecidableEq, Repr

/-- Whether `FromString` returned a non-nil error (a normal error return,
not a panic). -/
def FSResult.isErr : FSResult → Bool
  | .err _ => true
  | _ => false

/-- The hw-addr loop of `FromString`:
`for i := range u.hwAddr { b, err := strconv.ParseUint(parts[2][2*i:2*i+2], 16, 8); ... }`.
A `[6]byte` receiver field makes this exactly the indices `[0,1,2,3,4,5]`.
The slice `parts[2][2*i:2*i+2]` panics when `2*i+2 > len(parts[2])`. -/
def hwLoop (p : List Char) : List Nat → UniqueTimestamp → FSResult
  | [], u => .ok u
  | i :: rest, u =>
    if 2 * i + 2 > p.length then .panic
    else
      match ParseUint (sliceList p (2 * i) (2 * i + 2)) 8 with
      | none => .err u
      | some b => hwLoop p rest { u with hwAddr := u.hwAddr.set i b }

/-- Function `func (u *UniqueTimestamp) FromString(val string) error`, with the
receiver threaded explicitly.  Field writes happen in source order, so an
error may leave the receiver partially updated, exactly as in Go. -/
def FromString (u : UniqueTimestamp) (val : List Char) : FSResult :=
  let parts := splitDash val
  if parts.length ≠ 3 then .err u
  else
    match ParseInt64Hex (parts.getD 0 []) with
    | none => .err u
    | some timestamp =>
      let u := { u with Timestamp := timestamp }
      match ParseUint (parts.getD 1 []) 32 with
      | none => .err u
      | some s =>
        let u := { u with seqNo := s }
        hwLoop (parts.getD 2 []) [0, 1, 2, 3, 4, 5] u

/-- Go's byte-wise lexicographic `<` on strings. -/
def goStrLt : List Char → List Char → Bool
  | _, [] => false
  | [], _ :: _ => true
  | a :: as, b :: bs =>
    if a.toNat < b.toNat then true
    else if b.toNat < a.toNat then false
    else goStrLt as bs

/-- Go's `<=` on strings: `a <= b ↔ ¬(b < a)`. -/
def goStrLe (a b : List Char) : Bool := !goStrLt b a

/-- Lexicographic `<` on byte lists (auxiliary, same shape as `goStrLt`). -/
def bytesLt : List Nat → List Nat → Bool
  | _, [] => false
  | [], _ :: _ => true
  | x :: xs, y :: ys =>
    if x < y then true
    else if y < x then false
    else bytesLt xs ys

/-- Big-endian base-256 digits of `n`, width `w`. -/
def beDigits : Nat → Nat → List Nat
  | 0, _ => []
  | w + 1, n => n / 256 ^ w :: beDigits w (n % 256 ^ w)

/-- The two hex characters of one byte, high nibble first. -/
def hexPair (b : Nat) : List Char := [hexDigit (b / 16), hexDigit (b % 16)]

/-- Hex characters of a byte list. -/
def hexPairs (bs : List Nat) : List Char := bs.flatMap hexPair

/-- The timestamp truncated to its low 48 bits, as the unsigned value the
string encoding carries. -/
def trunc48 (t : Int) : Nat := (t % (2 ^ 48 : Int)).toNat

/-- The six encoded timestamp bytes. -/
def tsBytes (t : Int) : List Nat :=
  [tsByte t 0, tsByte t 1, tsByte t 2, tsByte t 3, tsByte t 4, tsByte t 5]

/-- State after `n` successive `NewUniqueTimestamp` calls (the linearized
trace of the atomic counter; the timestamp argument does not affect the
counter). -/
def iterCalls (st : ProcState) : Nat → ProcState
  | 0 => st
  | n + 1 => (NewUniqueTimestamp (iterCalls st n) 0).2

/-- The sequence value returned by the `k`-th call (the post-increment
value, i.e. the counter after `k` calls). -/
def callValue (st : ProcState) (k : Nat) : Nat := (iterCalls st k).seqNo


theorem goStrLt_cons_lt {a b : Char} (as bs : List Char) (h : a.toNat < b.toNat) :
    goStrLt (a :: as) (b :: bs) = true := by
  simp [goStrLt, h]

theorem goStrLt_cons_tail {a b : Char} (as bs : List Char)
    (h1 : ¬ a.toNat < b.toNat) (h2 : ¬ b.toNat < a.toNat) :
    goStrLt (a :: as) (b :: bs) = goStrLt as bs := by
  simp [goStrLt, h1, h2]

theorem goStrLt_append_same (p r1 r2 : List Char) :
    goStrLt (p ++ r1) (p ++ r2) = goStrLt r1 r2 := by
  induction p with
  | nil => rfl
  | cons a p ih => simpa [goStrLt] using ih

theorem goStrLe_append_same (p r1 r2 : List Char) :
    goStrLe (p ++ r1) (p ++ r2) = goStrLe r1 r2 := by
  simp [goStrLe, goStrLt_append_same]

theorem goStrLe_of_forall2 {as bs : List Char}
    (h : List.Forall₂ (fun a b => a.toNat ≤ b.toNat) as bs) :
    goStrLe as bs = true := by
  induction h with
  | nil => rfl
  | @cons a b as' bs' hab htail ih =>
    have hnlt : ¬ b.toNat < a.toNat := by omega
    by_cases hlt : a.toNat < b.toNat
    · simp [goStrLe, goStrLt, hnlt, hlt]
    · simp only [goStrLe, goStrLt, if_neg hnlt, if_neg hlt] at ih ⊢
      exact ih

theorem hexDigit_toNat_lt : ∀ a, a < 16 → ∀ b, b < 16 → a < b →
    (hexDigit a).toNat < (hexDigit b).toNat := by decide

theorem hexDigit_zero_le : ∀ b, b < 16 → ('0').toNat ≤ (hexDigit b).toNat := by decide

theorem hexDigit_le_f : ∀ b, b < 16 → (hexDigit b).toNat ≤ ('f').toNat := by decide


theorem trunc48_lt (t : Int) : trunc48 t < 2 ^ 48 := by
  have h1 : t % (2 ^ 48 : Int) < 2 ^ 48 := Int.emod_lt_of_pos t (by positivity)
  have h2 : (0 : Int) ≤ t % (2 ^ 48 : Int) := Int.emod_nonneg t (by positivity)
  unfold trunc48
  omega

theorem fdivByte (t : Int) (k : Nat) (hk : k ≤ 40) :
    ((t.fdiv ((2 : Int) ^ k)) % 256).toNat = (t % (2 ^ 48 : Int)).toNat / 2 ^ k % 256 := by
  have hpow : (0 : Int) < 2 ^ k := by positivity
  rw [Int.fdiv_eq_ediv _ (Int.le_of_lt hpow)]
  have hpw : ((2 : Int) ^ (48 - k)) * 2 ^ k = 2 ^ 48 := by
    rw [← pow_add]
    congr 1
    omega
  have hdec : t = t % (2 ^ 48 : Int) + ((2 : Int) ^ (48 - k) * (t / (2 ^ 48 : Int))) * 2 ^ k := by
    calc t = 2 ^ 48 * (t / (2 ^ 48 : Int)) + t % (2 ^ 48 : Int) :=
          (Int.ediv_add_emod t (2 ^ 48)).symm
    _ = t % (2 ^ 48 : Int) + ((2 : Int) ^ (48 - k) * (t / (2 ^ 48 : Int))) * 2 ^ k := by
          linear_combination (-(t / (2 ^ 48 : Int))) * hpw
  conv_lhs => rw [hdec]
  rw [Int.add_mul_ediv_right _ _ (ne_of_gt hpow)]
  have h28 : (2 : Int) ^ (48 - k) = 256 * 2 ^ (40 - k) := by
    rw [show (256 : Int) = 2 ^ 8 from rfl, ← pow_add]
    congr 1
    omega
  have h8 : (2 : Int) ^ (48 - k) * (t / (2 ^ 48 : Int)) =
      256 * ((2 : Int) ^ (40 - k) * (t / (2 ^ 48 : Int))) := by
    rw [h28, mul_assoc]
  rw [h8, Int.add_mul_emod_self_left]
  have hn0 : (0 : Int) ≤ t % (2 ^ 48 : Int) := Int.emod_nonneg t (by positivity)
  rw [show t % (2 ^ 48 : Int) = (((t % (2 ^ 48 : Int)).toNat : Nat) : Int) from
    (Int.toNat_of_nonneg hn0).symm]
  norm_cast

theorem tsByte_lt_256 (t : Int) (i : Nat) : tsByte t i < 256 := by
  unfold tsByte
  have h1 : t.fdiv (2 ^ (40 - 8 * i)) % 256 < 256 := Int.emod_lt_of_pos _ (by norm_num)
  have h2 : (0 : Int) ≤ t.fdiv (2 ^ (40 - 8 * i)) % 256 := Int.emod_nonneg _ (by norm_num)
  omega

theorem seqByte_lt_256 (s i : Nat) : seqByte s i < 256 := by
  unfold seqByte
  omega

theorem tsBytes_eq (t : Int) :
    tsBytes t = [trunc48 t / 2 ^ 40 % 256, trunc48 t / 2 ^ 32 % 256,
      trunc48 t / 2 ^ 24 % 256, trunc48 t / 2 ^ 16 % 256,
      trunc48 t / 2 ^ 8 % 256, trunc48 t / 2 ^ 0 % 256] := by
  simp only [tsBytes, tsByte, trunc48, List.cons.injEq, and_true]
  norm_num
  exact ⟨fdivByte t 40 (by norm_num), fdivByte t 32 (by norm_num),
    fdivByte t 24 (by norm_num), fdivByte t 16 (by norm_num),
    fdivByte t 8 (by norm_num), by simpa using fdivByte t 0 (by norm_num)⟩

theorem bytesLt_cons_self (x : Nat) (xs ys : List Nat) :
    bytesLt (x :: xs) (x :: ys) = bytesLt xs ys := by
  simp [bytesLt]

theorem bytesLt_beDigits : ∀ (w n1 n2 : Nat), n1 < n2 → n2 < 256 ^ w →
    bytesLt (beDigits w n1) (beDigits w n2) = true := by
  intro w
  induction w with
  | zero => intro n1 n2 h h2; exact absurd h (by omega)
  | succ w ih =>
    intro n1 n2 h h2
    simp only [beDigits]
    have hq : n1 / 256 ^ w ≤ n2 / 256 ^ w := Nat.div_le_div_right (Nat.le_of_lt h)
    rcases Nat.lt_or_ge (n1 / 256 ^ w) (n2 / 256 ^ w) with hlt | hge
    · simp [bytesLt, hlt]
    · have heq : n1 / 256 ^ w = n2 / 256 ^ w := Nat.le_antisymm hq hge
      have hrem : n1 % 256 ^ w < n2 % 256 ^ w := by
        have e1 := Nat.div_add_mod n1 (256 ^ w)
        have e2 := Nat.div_add_mod n2 (256 ^ w)
        rw [heq] at e1
        omega
      have hrem2 : n2 % 256 ^ w < 256 ^ w := Nat.mod_lt _ (by positivity)
      rw [heq, bytesLt_cons_self]
      exact ih _ _ hrem hrem2

theorem beDigits_six (m : Nat) (hm : m < 2 ^ 48) :
    beDigits 6 m = [m / 2 ^ 40 % 256, m / 2 ^ 32 % 256, m / 2 ^ 24 % 256,
      m / 2 ^ 16 % 256, m / 2 ^ 8 % 256, m / 2 ^ 0 % 256] := by
  simp only [beDigits, List.cons.injEq]
  norm_num
  omega

theorem bytesLt_digits {m1 m2 : Nat} (h : m1 < m2) (h2 : m2 < 2 ^ 48) :
    bytesLt
      [m1 / 2 ^ 40 % 256, m1 / 2 ^ 32 % 256, m1 / 2 ^ 24 % 256,
        m1 / 2 ^ 16 % 256, m1 / 2 ^ 8 % 256, m1 / 2 ^ 0 % 256]
      [m2 / 2 ^ 40 % 256, m2 / 2 ^ 32 % 256, m2 / 2 ^ 24 % 256,
        m2 / 2 ^ 16 % 256, m2 / 2 ^ 8 % 256, m2 / 2 ^ 0 % 256] = true := by
  rw [← beDigits_six m1 (Nat.lt_trans h h2), ← beDigits_six m2 h2]
  exact bytesLt_beDigits 6 m1 m2 h (by norm_num; omega)


theorem hexPairs_cons (x : Nat) (xs : List Nat) :
    hexPairs (x :: xs) = hexDigit (x / 16) :: hexDigit (x % 16) :: hexPairs xs := by
  simp [hexPairs, hexPair]

theorem writeTs_chars (t : Int) :
    writeTs t (List.replicate 34 (Char.ofNat 0)) =
    [hexDigit (tsByte t 0 / 16),
      hexDigit (tsByte t 0 % 16),
      hexDigit (tsByte t 1 / 16),
      hexDigit (tsByte t 1 % 16),
      hexDigit (tsByte t 2 / 16),
      hexDigit (tsByte t 2 % 16),
      hexDigit (tsByte t 3 / 16),
      hexDigit (tsByte t 3 % 16),
      hexDigit (tsByte t 4 / 16),
      hexDigit (tsByte t 4 % 16),
      hexDigit (tsByte t 5 / 16),
      hexDigit (tsByte t 5 % 16),
      Char.ofNat 0,
      Char.ofNat 0,
      Char.ofNat 0,
      Char.ofNat 0,
      Char.ofNat 0,
      Char.ofNat 0,
      Char.ofNat 0,
      Char.ofNat 0,
      Char.ofNat 0,
      Char.ofNat 0,
      Char.ofNat 0,
      Char.ofNat 0,
      Char.ofNat 0,
      Char.ofNat 0,
      Char.ofNat 0,
      Char.ofNat 0,
      Char.ofNat 0,
      Char.ofNat 0,
      Char.ofNat 0,
      Char.ofNat 0,
      Char.ofNat 0,
      Char.ofNat 0] := by rfl

theorem writeSeq_chars (t : Int) (s : Nat) :
    writeSeq s (([hexDigit (tsByte t 0 / 16),
      hexDigit (tsByte t 0 % 16),
      hexDigit (tsByte t 1 / 16),
      hexDigit (tsByte t 1 % 16),
      hexDigit (tsByte t 2 / 16),
      hexDigit (tsByte t 2 % 16),
      hexDigit (tsByte t 3 / 16),
      hexDigit (tsByte t 3 % 16),
      hexDigit (tsByte t 4 / 16),
      hexDigit (tsByte t 4 % 16),
      hexDigit (tsByte t 5 / 16),
      hexDigit (tsByte t 5 % 16),
      Char.ofNat 0,
      Char.ofNat 0,
      Char.ofNat 0,
      Char.ofNat 0,
      Char.ofNat 0,
      Char.ofNat 0,
      Char.ofNat 0,
      Char.ofNat 0,
      Char.ofNat 0,
      Char.ofNat 0,
      Char.ofNat 0,
      Char.ofNat 0,
      Char.ofNat 0,
      Char.ofNat 0,
      Char.ofNat 0,
      Char.ofNat 0,
      Char.ofNat 0,
      Char.ofNat 0,
      Char.ofNat 0,
      Char.ofNat 0,
      Char.ofNat 0,
      Char.ofNat 0] : List Char).set 12 '-') =
    [hexDigit (tsByte t 0 / 16),
      hexDigit (tsByte t 0 % 16),
      hexDigit (tsByte t 1 / 16),
      hexDigit (tsByte t 1 % 16),
      hexDigit (tsByte t 2 / 16),
      hexDigit (tsByte t 2 % 16),
      hexDigit (tsByte t 3 / 16),
      hexDigit (tsByte t 3 % 16),
      hexDigit (tsByte t 4 / 16),
      hexDigit (tsByte t 4 % 16),
      hexDigit (tsByte t 5 / 16),
      hexDigit (tsByte t 5 % 16),
      '-',
      hexDigit (seqByte s 0 / 16),
      hexDigit (seqByte s 0 % 16),
      hexDigit (seqByte s 1 / 16),
      hexDigit (seqByte s 1 % 16),
      hexDigit (seqByte s 2 / 16),
      hexDigit (seqByte s 2 % 16),
      hexDigit (seqByte s 3 / 16),
      hexDigit (seqByte s 3 % 16),
      Char.ofNat 0,
      Char.ofNat 0,
      Char.ofNat 0,
      Char.ofNat 0,
      Char.ofNat 0,
      Char.ofNat 0,
      Char.ofNat 0,
      Char.ofNat 0,
      Char.ofNat 0,
      Char.ofNat 0,
      Char.ofNat 0,
      Char.ofNat 0,
      Char.ofNat 0] := by rfl

theorem writeHw_chars (t : Int) (s : Nat) (b0 b1 b2 b3 b4 b5 : Nat) :
    writeHw [b0, b1, b2, b3, b4, b5] (([hexDigit (tsByte t 0 / 16),
      hexDigit (tsByte t 0 % 16),
      hexDigit (tsByte t 1 / 16),
      hexDigit (tsByte t 1 % 16),
      hexDigit (tsByte t 2 / 16),
      hexDigit (tsByte t 2 % 16),
      hexDigit (tsByte t 3 / 16),
      hexDigit (tsByte t 3 % 16),
      hexDigit (tsByte t 4 / 16),
      hexDigit (tsByte t 4 % 16),
      hexDigit (tsByte t 5 / 16),
      hexDigit (tsByte t 5 % 16),
      '-',
      hexDigit (seqByte s 0 / 16),
      hexDigit (seqByte s 0 % 16),
      hexDigit (seqByte s 1 / 16),
      hexDigit (seqByte s 1 % 16),
      hexDigit (seqByte s 2 / 16),
      hexDigit (seqByte s 2 % 16),
      hexDigit (seqByte s 3 / 16),
      hexDigit (seqByte s 3 % 16),
      Char.ofNat 0,
      Char.ofNat 0,
      Char.ofNat 0,
      Char.ofNat 0,
      Char.ofNat 0,
      Char.ofNat 0,
      Char.ofNat 0,
      Char.ofNat 0,
      Char.ofNat 0,
      Char.ofNat 0,
      Char.ofNat 0,
      Char.ofNat 0,
      Char.ofNat 0] : List Char).set 20 '-') =
    [hexDigit (tsByte t 0 / 16),
      hexDigit (tsByte t 0 % 16),
      hexDigit (tsByte t 1 / 16),
      hexDigit (tsByte t 1 % 16),
      hexDigit (tsByte t 2 / 16),
      hexDigit (tsByte t 2 % 16),
      hexDigit (tsByte t 3 / 16),
      hexDigit (tsByte t 3 % 16),
      hexDigit (tsByte t 4 / 16),
      hexDigit (tsByte t 4 % 16),
      hexDigit (tsByte t 5 / 16),
      hexDigit (tsByte t 5 % 16),
      '-',
      hexDigit (seqByte s 0 / 16),
      hexDigit (seqByte s 0 % 16),
      hexDigit (seqByte s 1 / 16),
      hexDigit (seqByte s 1 % 16),
      hexDigit (seqByte s 2 / 16),
      hexDigit (seqByte s 2 % 16),
      hexDigit (seqByte s 3 / 16),
      '-',
      hexDigit (b0 / 16),
      hexDigit (b0 % 16),
      hexDigit (b1 / 16),
      hexDigit (b1 % 16),
      hexDigit (b2 / 16),
      hexDigit (b2 % 16),
      hexDigit (b3 / 16),
      hexDigit (b3 % 16),
      hexDigit (b4 / 16),
      hexDigit (b4 % 16),
      hexDigit (b5 / 16),
      hexDigit (b5 % 16),
      Char.ofNat 0] := by rfl

theorem string_chars (t : Int) (s : Nat) (b0 b1 b2 b3 b4 b5 : Nat) :
    (UniqueTimestamp.mk t s [b0, b1, b2, b3, b4, b5]).String =
      hexPairs (tsBytes t) ++ '-' ::
        (hexPairs [seqByte s 0, seqByte s 1, seqByte s 2] ++
          (hexDigit (seqByte s 3 / 16) :: '-' ::
            (hexPairs [b0, b1, b2, b3, b4, b5] ++ [Char.ofNat 0]))) := by
  show writeHw [b0, b1, b2, b3, b4, b5]
    ((writeSeq s
      ((writeTs t (List.replicate 34 (Char.ofNat 0))).set 12 '-')).set 20 '-') = _
  rw [writeTs_chars t, writeSeq_chars t s, writeHw_chars t s b0 b1 b2 b3 b4 b5]
  rfl


theorem hexPairs_nil : hexPairs [] = [] := rfl

theorem goStrLe_append_cons_same (p : List Char) (c : Char) (r1 r2 : List Char) :
    goStrLe (p ++ c :: r1) (p ++ c :: r2) = goStrLe r1 r2 := by
  have h := goStrLe_append_same (p ++ [c]) r1 r2
  simpa using h

theorem goStrLt_hexPairs : ∀ (xs ys : List Nat), xs.length = ys.length →
    (∀ x ∈ xs, x < 256) → (∀ y ∈ ys, y < 256) → bytesLt xs ys = true →
    ∀ r1 r2, goStrLt (hexPairs xs ++ r1) (hexPairs ys ++ r2) = true := by
  intro xs
  induction xs with
  | nil =>
    intro ys hlen hx hy h r1 r2
    cases ys with
    | nil => simp [bytesLt] at h
    | cons y ys => simp at hlen
  | cons x xs ih =>
    intro ys hlen hx hy h r1 r2
    cases ys with
    | nil => simp at hlen
    | cons y ys =>
      have hx0 : x < 256 := hx x (by simp)
      have hy0 : y < 256 := hy y (by simp)
      rw [hexPairs_cons, hexPairs_cons]
      simp only [List.cons_append]
      rcases Nat.lt_trichotomy x y with hxy | hxy | hxy
      · have hd : x / 16 ≤ y / 16 := Nat.div_le_div_right (Nat.le_of_lt hxy)
        rcases Nat.lt_or_ge (x / 16) (y / 16) with hdlt | hdge
        · exact goStrLt_cons_lt _ _ (hexDigit_toNat_lt _ (by omega) _ (by omega) hdlt)
        · have hdeq : x / 16 = y / 16 := by omega
          rw [hdeq, goStrLt_cons_tail _ _ (by omega) (by omega)]
          have hm : x % 16 < y % 16 := by omega
          exact goStrLt_cons_lt _ _ (hexDigit_toNat_lt _ (by omega) _ (by omega) hm)
      · subst hxy
        rw [goStrLt_cons_tail _ _ (by omega) (by omega),
          goStrLt_cons_tail _ _ (by omega) (by omega)]
        have htail : bytesLt xs ys = true := by simpa [bytesLt] using h
        exact ih ys (by simpa using hlen) (fun a ha => hx a (by simp [ha]))
          (fun a ha => hy a (by simp [ha])) htail r1 r2
      · have hnx : ¬ x < y := Nat.lt_asymm hxy
        simp [bytesLt, hnx, hxy] at h

theorem string_lt_of_trunc_lt (t1 t2 : Int) (s1 s2 : Nat)
    (a0 a1 a2 a3 a4 a5 b0 b1 b2 b3 b4 b5 : Nat)
    (h : trunc48 t1 < trunc48 t2) :
    goStrLt (UniqueTimestamp.String ⟨t1, s1, [a0, a1, a2, a3, a4, a5]⟩)
      (UniqueTimestamp.String ⟨t2, s2, [b0, b1, b2, b3, b4, b5]⟩) = true := by
  rw [string_chars, string_chars]
  apply goStrLt_hexPairs
  · simp [tsBytes]
  · intro x hx
    simp [tsBytes] at hx
    rcases hx with rfl | rfl | rfl | rfl | rfl | rfl <;> exact tsByte_lt_256 _ _
  · intro y hy
    simp [tsBytes] at hy
    rcases hy with rfl | rfl | rfl | rfl | rfl | rfl <;> exact tsByte_lt_256 _ _
  · rw [tsBytes_eq, tsBytes_eq]
    exact bytesLt_digits h (trunc48_lt t2)

theorem min_string (t : Int) :
    (MinUniqueTimestamp t).String = hexPairs (tsBytes t) ++ '-' ::
      ['0',
      '0',
      '0',
      '0',
      '0',
      '0',
      '0',
      '-',
      '0',
      '0',
      '0',
      '0',
      '0',
      '0',
      '0',
      '0',
      '0',
      '0',
      '0',
      '0',
      Char.ofNat 0] := by
  rw [show MinUniqueTimestamp t = UniqueTimestamp.mk t 0 [0, 0, 0, 0, 0, 0] from rfl,
    string_chars]
  rfl

theorem max_string (t : Int) :
    (MaxUniqueTimestamp t).String = hexPairs (tsBytes t) ++ '-' ::
      ['f',
      'f',
      'f',
      'f',
      'f',
      'f',
      'f',
      '-',
      'f',
      'f',
      'f',
      'f',
      'f',
      'f',
      'f',
      'f',
      'f',
      'f',
      'f',
      'f',
      Char.ofNat 0] := by
  rw [show MaxUniqueTimestamp t =
    UniqueTimestamp.mk t 0xFFFFFFFF [0xFF, 0xFF, 0xFF, 0xFF, 0xFF, 0xFF] from rfl,
    string_chars]
  rfl

theorem minString_le (t : Int) (s : Nat) (b0 b1 b2 b3 b4 b5 : Nat)
    (h0 : b0 < 256) (h1 : b1 < 256) (h2 : b2 < 256) (h3 : b3 < 256)
    (h4 : b4 < 256) (h5 : b5 < 256) :
    goStrLe ((MinUniqueTimestamp t).String)
      ((UniqueTimestamp.mk t s [b0, b1, b2, b3, b4, b5]).String) = true := by
  rw [min_string, string_chars, goStrLe_append_cons_same]
  apply goStrLe_of_forall2
  simp only [hexPairs_cons, hexPairs_nil, List.cons_append, List.nil_append,
    List.forall₂_cons, List.Forall₂.nil, and_true]
  refine ⟨hexDigit_zero_le _ (by have := seqByte_lt_256 s 0; omega),
    hexDigit_zero_le _ (by have := seqByte_lt_256 s 0; omega),
    hexDigit_zero_le _ (by have := seqByte_lt_256 s 1; omega),
    hexDigit_zero_le _ (by have := seqByte_lt_256 s 1; omega),
    hexDigit_zero_le _ (by have := seqByte_lt_256 s 2; omega),
    hexDigit_zero_le _ (by have := seqByte_lt_256 s 2; omega),
    hexDigit_zero_le _ (by have := seqByte_lt_256 s 3; omega),
    Nat.le_refl _,
    hexDigit_zero_le _ (by omega),
    hexDigit_zero_le _ (by omega),
    hexDigit_zero_le _ (by omega),
    hexDigit_zero_le _ (by omega),
    hexDigit_zero_le _ (by omega),
    hexDigit_zero_le _ (by omega),
    hexDigit_zero_le _ (by omega),
    hexDigit_zero_le _ (by omega),
    hexDigit_zero_le _ (by omega),
    hexDigit_zero_le _ (by omega),
    hexDigit_zero_le _ (by omega),
    hexDigit_zero_le _ (by omega),
    Nat.le_refl _⟩

theorem maxString_le (t : Int) (s : Nat) (b0 b1 b2 b3 b4 b5 : Nat)
    (h0 : b0 < 256) (h1 : b1 < 256) (h2 : b2 < 256) (h3 : b3 < 256)
    (h4 : b4 < 256) (h5 : b5 < 256) :
    goStrLe ((UniqueTimestamp.mk t s [b0, b1, b2, b3, b4, b5]).String)
      ((MaxUniqueTimestamp t).String) = true := by
  rw [max_string, string_chars, goStrLe_append_cons_same]
  apply goStrLe_of_forall2
  simp only [hexPairs_cons, hexPairs_nil, List.cons_append, List.nil_append,
    List.forall₂_cons, List.Forall₂.nil, and_true]
  refine ⟨hexDigit_le_f _ (by have := seqByte_lt_256 s 0; omega),
    hexDigit_le_f _ (by have := seqByte_lt_256 s 0; omega),
    hexDigit_le_f _ (by have := seqByte_lt_256 s 1; omega),
    hexDigit_le_f _ (by have := seqByte_lt_256 s 1; omega),
    hexDigit_le_f _ (by have := seqByte_lt_256 s 2; omega),
    hexDigit_le_f _ (by have := seqByte_lt_256 s 2; omega),
    hexDigit_le_f _ (by have := seqByte_lt_256 s 3; omega),
    Nat.le_refl _,
    hexDigit_le_f _ (by omega),
    hexDigit_le_f _ (by omega),
    hexDigit_le_f _ (by omega),
    hexDigit_le_f _ (by omega),
    hexDigit_le_f _ (by omega),
    hexDigit_le_f _ (by omega),
    hexDigit_le_f _ (by omega),
    hexDigit_le_f _ (by omega),
    hexDigit_le_f _ (by omega),
    hexDigit_le_f _ (by omega),
    hexDigit_le_f _ (by omega),
    hexDigit_le_f _ (by omega),
    Nat.le_refl _⟩


theorem foldlHex_none (cs : List Char) :
    cs.foldl (fun acc c => acc.bind (fun n => (hexVal c).map (fun d => n * 16 + d)))
      none = none := by
  induction cs with
  | nil => rfl
  | cons c cs ih => simpa using ih

theorem foldlHex_bad : ∀ (cs : List Char) (c : Char), c ∈ cs → hexVal c = none →
    ∀ acc : Option Nat,
      cs.foldl (fun acc c => acc.bind (fun n => (hexVal c).map (fun d => n * 16 + d)))
        acc = none := by
  intro cs
  induction cs with
  | nil => intro c hc _ _; simp at hc
  | cons c' cs ih =>
    intro c hc hbad acc
    rcases List.mem_cons.mp hc with rfl | hmem
    · simp only [List.foldl_cons]
      have hstep : (acc.bind fun n => (hexVal c).map (fun d => n * 16 + d)) = none := by
        cases acc <;> simp [hbad]
      rw [hstep, foldlHex_none]
    · simp only [List.foldl_cons]
      exact ih c hmem hbad _

theorem parseHexDigits_bad {cs : List Char} {c : Char} (hc : c ∈ cs)
    (hbad : hexVal c = none) : parseHexDigits cs = none := by
  unfold parseHexDigits
  exact foldlHex_bad cs c hc hbad _

theorem ParseUint_bad {cs : List Char} (b : Nat) (h : ∃ c ∈ cs, hexVal c = none) :
    ParseUint cs b = none := by
  obtain ⟨c, hc, hbad⟩ := h
  unfold ParseUint
  by_cases he : cs = []
  · simp [he]
  · simp [he, parseHexDigits_bad hc hbad]

theorem ParseInt64Hex_bad {cs : List Char}
    (h : ∃ c ∈ cs, hexVal c = none ∧ c ≠ '+' ∧ c ≠ '-') :
    ParseInt64Hex cs = none := by
  obtain ⟨c, hc, hbad, hp, hm⟩ := h
  cases cs with
  | nil => rfl
  | cons c0 rest =>
    simp only [ParseInt64Hex]
    by_cases h0 : c0 = '+' ∨ c0 = '-'
    · have hcr : c ∈ rest := by
        rcases List.mem_cons.mp hc with rfl | hmem
        · rcases h0 with rfl | rfl
          · exact absurd rfl hp
          · exact absurd rfl hm
        · exact hmem
      rw [if_pos h0, ParseUint_bad 64 ⟨c, hcr, hbad⟩]
    · rw [if_neg h0, ParseUint_bad 64 ⟨c, hc, hbad⟩]

theorem fromString_err_parts (u : UniqueTimestamp) (val : List Char)
    (h : (splitDash val).length ≠ 3) : FromString u val = .err u := by
  simp only [FromString]
  rw [if_pos h]

theorem sliceList_pair : ∀ (p : List Char) (a : Nat), a + 2 ≤ p.length →
    sliceList p a (a + 2) = [p.getD a (Char.ofNat 0), p.getD (a + 1) (Char.ofNat 0)] := by
  intro p
  induction p with
  | nil => intro a h; simp at h
  | cons x xs ih =>
    intro a h
    cases a with
    | zero =>
      cases xs with
      | nil => simp at h
      | cons y ys => simp [sliceList]
    | succ a =>
      have hx := ih a (by simpa using h)
      simpa [sliceList] using hx

theorem hwLoop_errOf : ∀ (is : List Nat) (p : List Char) (u : UniqueTimestamp),
    (∀ i ∈ is, 2 * i + 2 ≤ p.length) →
    (∃ i ∈ is, ParseUint (sliceList p (2 * i) (2 * i + 2)) 8 = none) →
    (hwLoop p is u).isErr = true := by
  intro is
  induction is with
  | nil => intro p u _ h; simp at h
  | cons i is ih =>
    intro p u hb h
    have hble : 2 * i + 2 ≤ p.length := hb i (by simp)
    have hnp : ¬ (2 * i + 2 > p.length) := by omega
    simp only [hwLoop, if_neg hnp]
    cases hpu : ParseUint (sliceList p (2 * i) (2 * i + 2)) 8 with
    | none => simp [FSResult.isErr]
    | some b =>
      rcases h with ⟨j, hj, hjbad⟩
      rcases List.mem_cons.mp hj with rfl | hjmem
      · rw [hpu] at hjbad
        cases hjbad
      · exact ih p _ (fun a ha => hb a (by simp [ha])) ⟨j, hjmem, hjbad⟩


theorem fromString_err_seg1 (u : UniqueTimestamp) (val p0 p1 p2 : List Char)
    (hsp : splitDash val = [p0, p1, p2])
    (hbad : ∃ c ∈ p0, hexVal c = none ∧ c ≠ '+' ∧ c ≠ '-') :
    (FromString u val).isErr = true := by
  simp only [FromString, hsp]
  norm_num
  simp [ParseInt64Hex_bad hbad, FSResult.isErr]

theorem fromString_err_seg2 (u : UniqueTimestamp) (val p0 p1 p2 : List Char)
    (hsp : splitDash val = [p0, p1, p2]) (hbad : ∃ c ∈ p1, hexVal c = none) :
    (FromString u val).isErr = true := by
  simp only [FromString, hsp]
  norm_num
  cases hpi : ParseInt64Hex p0 with
  | none => simp [FSResult.isErr]
  | some ts => simp [ParseUint_bad 32 hbad, FSResult.isErr]

theorem fromString_err_seg3 (u : UniqueTimestamp) (val p0 p1 p2 : List Char)
    (hsp : splitDash val = [p0, p1, p2]) (hlen : 12 ≤ p2.length)
    (hbad : ∃ j, j < 12 ∧ hexVal (p2.getD j (Char.ofNat 0)) = none) :
    (FromString u val).isErr = true := by
  simp only [FromString, hsp]
  norm_num
  cases hpi : ParseInt64Hex p0 with
  | none => simp [FSResult.isErr]
  | some ts =>
    cases hpu : ParseUint p1 32 with
    | none => simp [FSResult.isErr]
    | some s =>
      apply hwLoop_errOf
      · intro i hi
        simp at hi
        rcases hi with rfl | rfl | rfl | rfl | rfl | rfl <;> omega
      · obtain ⟨j, hj12, hjbad⟩ := hbad
        refine ⟨j / 2, by simp; omega, ?_⟩
        have hb2 : 2 * (j / 2) + 2 ≤ p2.length := by omega
        rw [sliceList_pair p2 (2 * (j / 2)) hb2]
        apply ParseUint_bad
        by_cases hpar : j % 2 = 0
        · have hjeq : 2 * (j / 2) = j := by omega
          exact ⟨p2.getD j (Char.ofNat 0), by rw [hjeq]; simp, hjbad⟩
        · have hjeq : 2 * (j / 2) + 1 = j := by omega
          exact ⟨p2.getD j (Char.ofNat 0), by rw [hjeq]; simp, hjbad⟩

theorem iterCalls_seqNo (st : ProcState) (hs : st.seqNo < 2 ^ 32) :
    ∀ n, (iterCalls st n).seqNo = (st.seqNo + n) % 2 ^ 32 := by
  intro n
  induction n with
  | zero =>
    simp [iterCalls]
    omega
  | succ n ih =>
    simp [iterCalls, NewUniqueTimestamp, atomicAddUint32, ih]
    omega

theorem trunc48_succ (t : Int) (h : t % (2 ^ 48 : Int) ≠ 2 ^ 48 - 1) :
    trunc48 t < trunc48 (t + 1) := by
  unfold trunc48
  omega


/-- C1: the claim states `FromString ∘ String` recovers the timestamp mod
2^48, the sequence exactly, and the discriminator exactly.  The code's
`String()` overwrites the eighth sequence hex digit with `'-'` (`r[20] = '-'`),
so parsing the encoding of an identifier with sequence 1 succeeds but yields
sequence 0: the low nibble of the sequence is lost, contradicting the claim
(timestamp and discriminator do round-trip). -/
theorem c1_roundtrip_loses_low_sequence_nibble :
    FromString (UniqueTimestamp.mk 0 0 [0, 0, 0, 0, 0, 0])
        ((UniqueTimestamp.mk 0 1 [0, 0, 0, 0, 0, 0]).String) =
      .ok (UniqueTimestamp.mk 0 0 [0, 0, 0, 0, 0, 0]) ∧
    FromString (UniqueTimestamp.mk 0 0 [0, 0, 0, 0, 0, 0])
        ((UniqueTimestamp.mk 0 1 [0, 0, 0, 0, 0, 0]).String) ≠
      .ok (UniqueTimestamp.mk 0 1 [0, 0, 0, 0, 0, 0]) := by
  refine ⟨by decide, by decide⟩

/-- C2: the claim states `String()` yields 34 chars with `'-'` at positions
12 and 21 and an 8-hex-char middle segment.  Evaluating the code: the length
is 34 and position 12 is `'-'`, but the second `'-'` is at position 20 (not
21), and position 33 is the unwritten NUL byte, not a hex digit — the middle
segment is only 7 characters. -/
theorem c2_dash_at_20_and_trailing_nul :
    ((UniqueTimestamp.mk 0 0 [0, 0, 0, 0, 0, 0]).String).length = 34 ∧
    ((UniqueTimestamp.mk 0 0 [0, 0, 0, 0, 0, 0]).String).getD 12 ' ' = '-' ∧
    ((UniqueTimestamp.mk 0 0 [0, 0, 0, 0, 0, 0]).String).getD 20 ' ' = '-' ∧
    ((UniqueTimestamp.mk 0 0 [0, 0, 0, 0, 0, 0]).String).getD 21 ' ' ≠ '-' ∧
    ((UniqueTimestamp.mk 0 0 [0, 0, 0, 0, 0, 0]).String).getD 33 ' ' = Char.ofNat 0 := by
  refine ⟨by decide, by decide, by decide, by decide, by decide⟩

/-- C3: the claim states that for equal timestamps, string order equals
(sequence, discriminator) pair order.  Because the encoder drops the low
sequence nibble, the pair (0, [0,0,0,0,0,1]) is smaller than
(1, [0,0,0,0,0,0]) in pair order, yet its encoding is strictly greater:
both middle segments collapse to "0000000" and the discriminator decides. -/
theorem c3_pair_order_reversed_in_strings :
    (UniqueTimestamp.mk 0 0 [0, 0, 0, 0, 0, 1]).seqNo <
      (UniqueTimestamp.mk 0 1 [0, 0, 0, 0, 0, 0]).seqNo ∧
    goStrLt ((UniqueTimestamp.mk 0 0 [0, 0, 0, 0, 0, 1]).String)
      ((UniqueTimestamp.mk 0 1 [0, 0, 0, 0, 0, 0]).String) = false ∧
    goStrLt ((UniqueTimestamp.mk 0 1 [0, 0, 0, 0, 0, 0]).String)
      ((UniqueTimestamp.mk 0 0 [0, 0, 0, 0, 0, 1]).String) = true := by
  refine ⟨by decide, by decide, by decide⟩

/-- C4 counterexample: at `t = 2^48 - 1` the truncated timestamp wraps, so
`String(Exact(t))` is not less than `String(Exact(t+1))`. -/
theorem c4_counterexample_wraparound :
    goStrLt ((UniqueTimestamp.mk (2 ^ 48 - 1) 5 [1, 2, 3, 4, 5, 6]).String)
      ((UniqueTimestamp.mk (2 ^ 48 - 1 + 1) 5 [1, 2, 3, 4, 5, 6]).String) = false := by
  decide

/-- C4 amended: for identifiers whose truncated (low 48 bits, unsigned)
timestamps differ, string order matches the order of the truncated
timestamps; in particular `String(Exact(t)) < String(Exact(t+1))` whenever
`t mod 2^48 ≠ 2^48 - 1`. -/
theorem c4_amended_order_matches_truncated_timestamp (t1 t2 : Int) (s1 s2 : Nat)
    (a0 a1 a2 a3 a4 a5 b0 b1 b2 b3 b4 b5 : Nat)
    (h : trunc48 t1 < trunc48 t2) :
    goStrLt (UniqueTimestamp.String ⟨t1, s1, [a0, a1, a2, a3, a4, a5]⟩)
      (UniqueTimestamp.String ⟨t2, s2, [b0, b1, b2, b3, b4, b5]⟩) = true ∧
    ∀ t : Int, t % (2 ^ 48 : Int) ≠ 2 ^ 48 - 1 →
      goStrLt (UniqueTimestamp.String ⟨t, s1, [a0, a1, a2, a3, a4, a5]⟩)
        (UniqueTimestamp.String ⟨t + 1, s2, [b0, b1, b2, b3, b4, b5]⟩) = true := by
  refine ⟨string_lt_of_trunc_lt t1 t2 s1 s2 a0 a1 a2 a3 a4 a5 b0 b1 b2 b3 b4 b5 h, ?_⟩
  intro t ht
  exact string_lt_of_trunc_lt t (t + 1) s1 s2 a0 a1 a2 a3 a4 a5 b0 b1 b2 b3 b4 b5
    (trunc48_succ t ht)

theorem c4_witness :
    goStrLt (UniqueTimestamp.String ⟨5, 1, [1, 2, 3, 4, 5, 6]⟩)
      (UniqueTimestamp.String ⟨9, 0, [0, 0, 0, 0, 0, 0]⟩) = true :=
  (c4_amended_order_matches_truncated_timestamp 5 9 1 0 1 2 3 4 5 6 0 0 0 0 0 0
    (by decide)).1

/-- C5 counterexample: the exact identifier with sequence 0 and all-zero
discriminator (values the wrapping counter and a zero hardware address can
produce) has literally the same encoding as the Min bound, so the strict
inequality of the claim fails. -/
theorem c5_counterexample_min_equals_exact :
    goStrLt ((MinUniqueTimestamp 0).String)
      ((UniqueTimestamp.mk 0 0 [0, 0, 0, 0, 0, 0]).String) = false ∧
    (MinUniqueTimestamp 0).String = (UniqueTimestamp.mk 0 0 [0, 0, 0, 0, 0, 0]).String := by
  refine ⟨by decide, by decide⟩

/-- C5 amended: for every timestamp and every exact identifier with in-range
discriminator bytes, the bounds sandwich holds non-strictly:
`String(Min(t)) ≤ String(exact) ≤ String(Max(t))` in Go's lexicographic
order; equality is possible at the extremes. -/
theorem c5_amended_nonstrict_sandwich (t : Int) (s : Nat)
    (b0 b1 b2 b3 b4 b5 : Nat)
    (h0 : b0 < 256) (h1 : b1 < 256) (h2 : b2 < 256) (h3 : b3 < 256)
    (h4 : b4 < 256) (h5 : b5 < 256) :
    goStrLe ((MinUniqueTimestamp t).String)
      ((UniqueTimestamp.mk t s [b0, b1, b2, b3, b4, b5]).String) = true ∧
    goStrLe ((UniqueTimestamp.mk t s [b0, b1, b2, b3, b4, b5]).String)
      ((MaxUniqueTimestamp t).String) = true :=
  ⟨minString_le t s b0 b1 b2 b3 b4 b5 h0 h1 h2 h3 h4 h5,
   maxString_le t s b0 b1 b2 b3 b4 b5 h0 h1 h2 h3 h4 h5⟩

theorem c5_witness :
    goStrLe ((MinUniqueTimestamp 3).String)
      ((UniqueTimestamp.mk 3 7 [1, 2, 3, 4, 5, 6]).String) = true ∧
    goStrLe ((UniqueTimestamp.mk 3 7 [1, 2, 3, 4, 5, 6]).String)
      ((MaxUniqueTimestamp 3).String) = true :=
  c5_amended_nonstrict_sandwich 3 7 1 2 3 4 5 6 (by decide) (by decide) (by decide)
    (by decide) (by decide) (by decide)

/-- C6 counterexample: at `t = 2^48 - 1` the truncated timestamp of `t + 1`
wraps to zero, so `String(Exact(t+1))` is smaller, not greater, than
`String(Max(t))`. -/
theorem c6_counterexample_wraparound :
    goStrLt ((MaxUniqueTimestamp (2 ^ 48 - 1)).String)
      ((UniqueTimestamp.mk (2 ^ 48 - 1 + 1) 5 [1, 2, 3, 4, 5, 6]).String) = false := by
  decide

/-- C6 amended: whenever `t mod 2^48 ≠ 2^48 - 1`, the bound separation
holds: `String(Exact(t+1)) > String(Max(t))` and
`String(Exact(t)) < String(Min(t+1))`, for any sequence and discriminator
of the exact identifiers. -/
theorem c6_amended_bound_separation (t : Int) (s1 s2 : Nat)
    (a0 a1 a2 a3 a4 a5 b0 b1 b2 b3 b4 b5 : Nat)
    (h : t % (2 ^ 48 : Int) ≠ 2 ^ 48 - 1) :
    goStrLt ((MaxUniqueTimestamp t).String)
      (UniqueTimestamp.String ⟨t + 1, s1, [a0, a1, a2, a3, a4, a5]⟩) = true ∧
    goStrLt (UniqueTimestamp.String ⟨t, s2, [b0, b1, b2, b3, b4, b5]⟩)
      ((MinUniqueTimestamp (t + 1)).String) = true := by
  have ht := trunc48_succ t h
  exact ⟨string_lt_of_trunc_lt t (t + 1) 0xFFFFFFFF s1 0xFF 0xFF 0xFF 0xFF 0xFF 0xFF
      a0 a1 a2 a3 a4 a5 ht,
    string_lt_of_trunc_lt t (t + 1) s2 0 b0 b1 b2 b3 b4 b5 0 0 0 0 0 0 ht⟩

theorem c6_witness :
    goStrLt ((MaxUniqueTimestamp 7).String)
      (UniqueTimestamp.String ⟨7 + 1, 9, [1, 2, 3, 4, 5, 6]⟩) = true ∧
    goStrLt (UniqueTimestamp.String ⟨7, 2, [6, 5, 4, 3, 2, 1]⟩)
      ((MinUniqueTimestamp (7 + 1)).String) = true :=
  c6_amended_bound_separation 7 9 2 1 2 3 4 5 6 6 5 4 3 2 1 (by decide)

/-- C7: the claim states a 3-part input with a third part not exactly 12
characters yields a reported parse error and never crashes.  The code slices
`parts[2][2*i:2*i+2]` without a bounds check: a shorter third part panics
(slice out of range), and a longer one whose first 12 characters are hex is
silently accepted. -/
theorem c7_short_segment_panics_long_segment_accepted :
    FromString (UniqueTimestamp.mk 0 0 [0, 0, 0, 0, 0, 0]) ("0-0-00".toList) = .panic ∧
    FromString (UniqueTimestamp.mk 0 0 [0, 0, 0, 0, 0, 0]) ("0-0-0000000000000".toList) =
      .ok (UniqueTimestamp.mk 0 0 [0, 0, 0, 0, 0, 0]) := by
  refine ⟨by decide, by decide⟩

/-- C8 counterexample: the decoder is not strict — uppercase hex digits in
the first segment parse successfully (Go's `strconv` is case-insensitive),
and trailing garbage after the twelfth character of the third segment is
never examined. -/
theorem c8_counterexample_lenient_decoder :
    FromString (UniqueTimestamp.mk 0 0 [0, 0, 0, 0, 0, 0])
        ("00000543CEF9-0000b9d0-c42c0319bdbe".toList) =
      .ok (UniqueTimestamp.mk 88329977 47568 [196, 44, 3, 25, 189, 190]) ∧
    FromString (UniqueTimestamp.mk 0 0 [0, 0, 0, 0, 0, 0])
        ("0-0-000000000000zz".toList) =
      .ok (UniqueTimestamp.mk 0 0 [0, 0, 0, 0, 0, 0]) := by
  refine ⟨by decide, by decide⟩

/-- C8 amended: `FromString` errors on every input whose separator count is
not exactly 2; on any 3-part input whose first segment has a character that
is neither a hex digit (either case) nor a leading sign, or whose second
segment has a non-hex character, or whose third segment is at least 12 long
with a non-hex character among its first 12; in particular
"zz-00000001-000000000000" and "00000543cef9-0000b9d" fail.  (Uppercase hex,
a leading '+', and trailing characters after the twelfth character of the
third segment are accepted.) -/
theorem c8_amended_error_cases :
    (∀ (u : UniqueTimestamp) (val : List Char), (splitDash val).length ≠ 3 →
      (FromString u val).isErr = true) ∧
    (∀ (u : UniqueTimestamp) (val p0 p1 p2 : List Char), splitDash val = [p0, p1, p2] →
      (∃ c ∈ p0, hexVal c = none ∧ c ≠ '+' ∧ c ≠ '-') →
      (FromString u val).isErr = true) ∧
    (∀ (u : UniqueTimestamp) (val p0 p1 p2 : List Char), splitDash val = [p0, p1, p2] →
      (∃ c ∈ p1, hexVal c = none) → (FromString u val).isErr = true) ∧
    (∀ (u : UniqueTimestamp) (val p0 p1 p2 : List Char), splitDash val = [p0, p1, p2] →
      12 ≤ p2.length → (∃ j, j < 12 ∧ hexVal (p2.getD j (Char.ofNat 0)) = none) →
      (FromString u val).isErr = true) ∧
    (FromString (UniqueTimestamp.mk 0 0 [0, 0, 0, 0, 0, 0])
      ("zz-00000001-000000000000".toList)).isErr = true ∧
    (FromString (UniqueTimestamp.mk 0 0 [0, 0, 0, 0, 0, 0])
      ("00000543cef9-0000b9d".toList)).isErr = true := by
  refine ⟨?_, ?_, ?_, ?_, by decide, by decide⟩
  · intro u val h
    rw [fromString_err_parts u val h]
    rfl
  · intro u val p0 p1 p2 hsp hbad
    exact fromString_err_seg1 u val p0 p1 p2 hsp hbad
  · intro u val p0 p1 p2 hsp hbad
    exact fromString_err_seg2 u val p0 p1 p2 hsp hbad
  · intro u val p0 p1 p2 hsp hlen hbad
    exact fromString_err_seg3 u val p0 p1 p2 hsp hlen hbad

theorem c8_witness :
    (FromString (UniqueTimestamp.mk 0 0 [0, 0, 0, 0, 0, 0]) ("abc".toList)).isErr = true :=
  c8_amended_error_cases.1 (UniqueTimestamp.mk 0 0 [0, 0, 0, 0, 0, 0]) ("abc".toList)
    (by decide)

/-- C9 counterexample: the counter is a wrapping 32-bit `atomic.AddUint32`:
the call made when the counter holds `2^32 - 1` returns 0 (not a strict
increase), and from seed 0 the 1st and the `2^32 + 1`-st calls return the
same sequence value 1 — values are reused after 2^32 calls. -/
theorem c9_counterexample_sequence_reused :
    (NewUniqueTimestamp (ProcState.mk (2 ^ 32 - 1) [0, 0, 0, 0, 0, 0]) 0).1.seqNo = 0 ∧
    callValue (ProcState.mk 0 [0, 0, 0, 0, 0, 0]) 1 =
      callValue (ProcState.mk 0 [0, 0, 0, 0, 0, 0]) (2 ^ 32 + 1) ∧
    (1 : Nat) ≠ 2 ^ 32 + 1 := by
  refine ⟨by decide, ?_, by norm_num⟩
  show (iterCalls (ProcState.mk 0 [0, 0, 0, 0, 0, 0]) 1).seqNo =
    (iterCalls (ProcState.mk 0 [0, 0, 0, 0, 0, 0]) (2 ^ 32 + 1)).seqNo
  rw [iterCalls_seqNo _ (by norm_num), iterCalls_seqNo _ (by norm_num)]
  omega

/-- C9 amended: each call returns (and stores) `(counter + 1) mod 2^32`, so
in the linearized trace of the atomic counter any two distinct calls fewer
than 2^32 apart return distinct sequence values; values repeat with period
2^32. -/
theorem c9_amended_wrapping_counter (st : ProcState) (t : Int) (i j : Nat)
    (hs : st.seqNo < 2 ^ 32) (hij : i < j) (hwin : j - i < 2 ^ 32) :
    (NewUniqueTimestamp st t).1.seqNo = (st.seqNo + 1) % 2 ^ 32 ∧
    (NewUniqueTimestamp st t).2.seqNo = (st.seqNo + 1) % 2 ^ 32 ∧
    callValue st i ≠ callValue st j := by
  refine ⟨rfl, rfl, ?_⟩
  show (iterCalls st i).seqNo ≠ (iterCalls st j).seqNo
  rw [iterCalls_seqNo st hs i, iterCalls_seqNo st hs j]
  omega

theorem c9_witness :
    (NewUniqueTimestamp (ProcState.mk 0 [0, 0, 0, 0, 0, 0]) 0).1.seqNo = (0 + 1) % 2 ^ 32 ∧
    (NewUniqueTimestamp (ProcState.mk 0 [0, 0, 0, 0, 0, 0]) 0).2.seqNo = (0 + 1) % 2 ^ 32 ∧
    callValue (ProcState.mk 0 [0, 0, 0, 0, 0, 0]) 1 ≠
      callValue (ProcState.mk 0 [0, 0, 0, 0, 0, 0]) 2 :=
  c9_amended_wrapping_counter (ProcState.mk 0 [0, 0, 0, 0, 0, 0]) 0 1 2
    (by norm_num) (by norm_num) (by norm_num)

/-- C10: when the input does not split on '-' into exactly 3 parts,
`FromString` returns the error before writing any field: the returned
receiver state is exactly the original receiver. -/
theorem c10_separator_failure_leaves_receiver_unchanged
    (u : UniqueTimestamp) (val : List Char)
    (h : (splitDash val).length ≠ 3) :
    FromString u val = .err u :=
  fromString_err_parts u val h

theorem c10_witness :
    FromString (UniqueTimestamp.mk 7 9 [1, 2, 3, 4, 5, 6]) ("abc".toList) =
      .err (UniqueTimestamp.mk 7 9 [1, 2, 3, 4, 5, 6]) :=
  c10_separator_failure_leaves_receiver_unchanged
    (UniqueTimestamp.mk 7 9 [1, 2, 3, 4, 5, 6]) ("abc".toList) (by decide)

end GoUniqueTs
